import Mathlib

/-!
Verification of the room-synchronization core of the DrawTogether server
(`app.py`): the connection manager (session registry, room state, broadcast
fan-out), the message router `handle_message`, and the snapshot parsing of
`load_room`.

The Python code is shallowly embedded: Python dicts become association
lists over `String` keys (Python 3.7+ dicts preserve insertion order, which
matters for broadcast iteration and palette assignment), timestamps and
numeric payloads become `Int`, and a send over a websocket is modeled by a
handle `String` together with an environment `fails : String → Bool`
telling which handles raise on send.  Uncaught Python exceptions are
modeled by an `exn` flag carried in each operation result, together with
the manager state and the deliveries made up to the raise.
-/

namespace DrawTogether

/-- `m[k]` lookup on an insertion-ordered association list (Python dict). -/
def getVal? {α : Type} (m : List (String × α)) (k : String) : Option α :=
  match m with
  | [] => none
  | (k', v) :: rest => if k' = k then some v else getVal? rest k

/-- `m[k] = v` on a Python dict: replaces in place if the key is present,
otherwise appends at the end (insertion order). -/
def setVal {α : Type} (m : List (String × α)) (k : String) (v : α) : List (String × α) :=
  match m with
  | [] => [(k, v)]
  | (k', v') :: rest => if k' = k then (k, v) :: rest else (k', v') :: setVal rest k v

/-- `del m[k]` on a Python dict (the key occurs at most once). -/
def delVal {α : Type} (m : List (String × α)) (k : String) : List (String × α) :=
  match m with
  | [] => []
  | (k', v') :: rest => if k' = k then rest else (k', v') :: delVal rest k

/-- A point of a stroke (the Python code stores a list of `{x, y}` dicts). -/
structure Point where
  x : Int
  y : Int
deriving DecidableEq, Repr

structure Stroke where
  id : String
  user_id : String
  points : List Point
  color : String
  size : Int
  layer_id : String
  timestamp : Int
  tool : String
deriving DecidableEq, Repr

structure Layer where
  id : String
  name : String
  visible : Bool
  locked : Bool
  opacity : Rat
  order : Int
deriving DecidableEq, Repr

structure ChatMessage where
  id : String
  user_id : String
  nickname : String
  text : String
  timestamp : Int
deriving DecidableEq, Repr

structure Room where
  id : String
  name : String
  password_hash : Option String
  layers : List Layer
  strokes : List Stroke
  chat_messages : List ChatMessage
  timer_end : Option Int
  created_at : Int
  thumbnail : Option String
deriving DecidableEq, Repr

structure RoomStats where
  total_strokes : Int
  total_users_joined : Int
  active_users : Int
  created_at : Int
  last_activity : Int
deriving DecidableEq, Repr

/-- One entry of `ConnectionManager.user_info`. -/
structure UserInfo where
  nickname : String
  room_id : String
  color : String
deriving DecidableEq, Repr

/-- The entries produced by `get_room_users`. -/
structure UserEntry where
  id : String
  nickname : String
  color : String
deriving DecidableEq, Repr

/-- The state of `ConnectionManager`.  `rooms` maps a room id to the
session map (user id → websocket handle); the remaining fields mirror the
Python attributes one for one. -/
structure Manager where
  rooms : List (String × List (String × String))
  user_info : List (String × UserInfo)
  room_data : List (String × Room)
  room_stats : List (String × RoomStats)
  user_colors : List (String × String)
deriving DecidableEq, Repr

/-- An outbound JSON message, one constructor per `"type"` the server emits. -/
inductive OutMsg where
  | error (message : String)
  | user_joined (user_id nickname color : String) (users : List UserEntry)
  | init_state (room_id name : String) (has_password : Bool)
      (layers : List Layer) (strokes : List Stroke)
      (chat_messages : List ChatMessage) (timer_end : Option Int)
      (users : List UserEntry) (stats : RoomStats) (your_color : String)
  | user_left (user_id nickname : String) (users : List UserEntry)
  | stroke (s : Stroke)
  | remove_stroke (stroke_id : String)
  | layer_added (l : Layer)
  | layer_cleared (layer_id : String)
  | cursor (user_id : String) (x y : Int) (color : String)
  | chat (m : ChatMessage)
  | timer_started (timer_end : Option Int) (duration : Int)
  | timer_stopped
  | reaction (user_id emoji : String) (x y : Int)
deriving DecidableEq, Repr

/-- A delivered message: recipient user id paired with the message. -/
abbrev Send := String × OutMsg

/-- Result of a state-mutating async operation: final manager state, the
deliveries made, and whether an uncaught Python exception was raised
(`mgr`/`sends` then hold the state and deliveries up to the raise). -/
structure StepOut where
  mgr : Manager
  sends : List Send
  exn : Bool
deriving DecidableEq, Repr

/-- Result of `ConnectionManager.disconnect`. -/
structure DiscOut where
  mgr : Manager
  nickname : Option String
  exn : Bool
deriving DecidableEq, Repr

/-- Result of `ConnectionManager.connect`: `accepted` is the Python return
value (meaningful only when `exn = false`). -/
structure ConnectOut where
  mgr : Manager
  accepted : Bool
  sends : List Send
  exn : Bool
deriving DecidableEq, Repr

/-- The fixed color palette of `_get_user_color`. -/
def palette : List String :=
  ["#FF6B6B", "#4ECDC4", "#45B7D1", "#96CEB4",
   "#FFEAA7", "#DDA0DD", "#98D8C8", "#F7DC6F",
   "#BB8FCE", "#85C1E9", "#F8B500", "#00CED1"]

/-- `_get_user_color`: assigns `palette[len(user_colors) % len(palette)]`
on first appearance, then returns the remembered color. -/
def get_user_color (m : Manager) (user_id : String) : Manager × String :=
  match getVal? m.user_colors user_id with
  | some c => (m, c)
  | none =>
    let c := palette.getD (m.user_colors.length % palette.length) "#888888"
    ({ m with user_colors := setVal m.user_colors user_id c }, c)

/-- `get_room_users`. -/
def get_room_users (m : Manager) (room_id : String) : List UserEntry :=
  ((getVal? m.rooms room_id).getD []).map (fun p =>
    match getVal? m.user_info p.1 with
    | some info => ⟨p.1, info.nickname, info.color⟩
    | none => ⟨p.1, "Anonymous", "#888888"⟩)

/-- `ConnectionManager.disconnect`.  The `del self.user_info[user_id]`
raises `KeyError` when the key is absent; in that case `exn` is set and
`mgr` is the state at the raise (the session-map deletion has happened). -/
def disconnect (m : Manager) (room_id user_id : String) : DiscOut :=
  match getVal? m.rooms room_id with
  | none => ⟨m, none, false⟩
  | some sess =>
    if (getVal? sess user_id).isSome then
      let sess' := delVal sess user_id
      let m1 := { m with rooms := setVal m.rooms room_id sess' }
      let nickname := ((getVal? m.user_info user_id).map UserInfo.nickname).getD "Unknown"
      if (getVal? m.user_info user_id).isSome then
        let m2 := { m1 with user_info := delVal m1.user_info user_id }
        let m3 :=
          match getVal? m2.room_stats room_id with
          | some st =>
            let st' := { st with active_users := (sess'.length : Int) }
            { m2 with room_stats := setVal m2.room_stats room_id st' }
          | none => m2
        ⟨m3, some nickname, false⟩
      else ⟨m1, none, true⟩
    else ⟨m, none, false⟩

/-- The fan-out loop of `broadcast`: walks the snapshot of the session
map in order, skipping the excluded user, recording a delivery per
successful send and collecting the user ids whose send raised. -/
def sendPass (fails : String → Bool) (msg : OutMsg) (exclude : Option String) :
    List (String × String) → List Send × List String
  | [] => ([], [])
  | p :: rest =>
    if some p.1 = exclude then sendPass fails msg exclude rest
    else if fails p.2 then
      let r := sendPass fails msg exclude rest
      (r.1, p.1 :: r.2)
    else
      let r := sendPass fails msg exclude rest
      ((p.1, msg) :: r.1, r.2)

/-- The cleanup loop of `broadcast`: disconnects each collected user in
order; a `KeyError` inside `disconnect` propagates. -/
def runDisconnects (room_id : String) : Manager → List String → Manager × Bool
  | m, [] => (m, false)
  | m, uid :: rest =>
    let d := disconnect m room_id uid
    if d.exn then (d.mgr, true)
    else runDisconnects room_id d.mgr rest

/-- `ConnectionManager.broadcast`. -/
def broadcast (fails : String → Bool) (m : Manager) (room_id : String)
    (msg : OutMsg) (exclude : Option String) : StepOut :=
  match getVal? m.rooms room_id with
  | none => ⟨m, [], false⟩
  | some sess =>
    let pass := sendPass fails msg exclude sess
    let cl := runDisconnects room_id m pass.2
    ⟨cl.1, pass.1, cl.2⟩

/-- `ConnectionManager.add_stroke` (`now` models `datetime.now().timestamp()`). -/
def add_stroke (m : Manager) (now : Int) (room_id : String) (s : Stroke) : Manager :=
  match getVal? m.room_data room_id with
  | none => m
  | some room =>
    let room' := { room with strokes := room.strokes ++ [s] }
    let m1 := { m with room_data := setVal m.room_data room_id room' }
    match getVal? m1.room_stats room_id with
    | some st =>
      let st' := { st with total_strokes := st.total_strokes + 1, last_activity := now }
      { m1 with room_stats := setVal m1.room_stats room_id st' }
    | none => m1

/-- The newest-to-oldest scan of `remove_last_stroke`: prefers a match
further towards the end of the list, returns the removed stroke and the
remaining log. -/
def popLastBy (strokes : List Stroke) (user_id : String) : Option (Stroke × List Stroke) :=
  match strokes with
  | [] => none
  | s :: rest =>
    match popLastBy rest user_id with
    | some (r, rest') => some (r, s :: rest')
    | none => if s.user_id = user_id then some (s, rest) else none

/-- `ConnectionManager.remove_last_stroke`. -/
def remove_last_stroke (m : Manager) (room_id user_id : String) : Manager × Option Stroke :=
  match getVal? m.room_data room_id with
  | none => (m, none)
  | some room =>
    match popLastBy room.strokes user_id with
    | none => (m, none)
    | some (s, rest) =>
      let room' := { room with strokes := rest }
      ({ m with room_data := setVal m.room_data room_id room' }, some s)

/-- `ConnectionManager.add_layer`. -/
def add_layer (m : Manager) (room_id : String) (l : Layer) : Manager :=
  match getVal? m.room_data room_id with
  | none => m
  | some room =>
    let room' := { room with layers := room.layers ++ [l] }
    { m with room_data := setVal m.room_data room_id room' }

/-- `ConnectionManager.clear_layer`. -/
def clear_layer (m : Manager) (room_id layer_id : String) : Manager :=
  match getVal? m.room_data room_id with
  | none => m
  | some room =>
    let room' := { room with strokes := room.strokes.filter (fun s => !(s.layer_id = layer_id)) }
    { m with room_data := setVal m.room_data room_id room' }

/-- `ConnectionManager.add_chat_message` (append, then keep the last 100;
Python `lst[-100:]` is `drop (length - 100)`). -/
def add_chat_message (m : Manager) (room_id : String) (msg : ChatMessage) : Manager :=
  match getVal? m.room_data room_id with
  | none => m
  | some room =>
    let l := room.chat_messages ++ [msg]
    let l2 := if l.length > 100 then l.drop (l.length - 100) else l
    let room' := { room with chat_messages := l2 }
    { m with room_data := setVal m.room_data room_id room' }

/-- `ConnectionManager.set_timer`. -/
def set_timer (m : Manager) (now : Int) (room_id : String) (duration_seconds : Int) :
    Manager × Option Int :=
  match getVal? m.room_data room_id with
  | none => (m, none)
  | some room =>
    let room' := { room with timer_end := some (now + duration_seconds) }
    ({ m with room_data := setVal m.room_data room_id room' },
     some (now + duration_seconds))

/-- `ConnectionManager.clear_timer`. -/
def clear_timer (m : Manager) (room_id : String) : Manager :=
  match getVal? m.room_data room_id with
  | none => m
  | some room =>
    let room' := { room with timer_end := none }
    { m with room_data := setVal m.room_data room_id room' }

/-- Python string slicing `s[:n]`: the first `n` characters. -/
def strTake (s : String) (n : Nat) : String := String.mk (s.data.take n)

/-- Python `lst[-50:]`: the last 50 elements (the whole list when shorter). -/
def last50 {α : Type} (l : List α) : List α := l.drop (l.length - 50)

/-- The room-creation password hash of `connect`:
`hashlib.sha256(password.encode()).hexdigest() if password else None`
(`hashHex` abstracts the external sha256-hexdigest; an empty or missing
password is falsy). -/
def pwHash (hashHex : String → String) (password : Option String) : Option String :=
  match password with
  | some p => if p = "" then none else some (hashHex p)
  | none => none

/-- The default `layer_0` "Background" layer created at room inception. -/
def backgroundLayer : Layer :=
  { id := "layer_0", name := "Background", visible := true, locked := false,
    opacity := 1, order := 0 }

/-- The password check at the top of `connect`: the join is rejected when
the room exists in `room_data` with a password hash and the supplied
plaintext is missing, empty (falsy), or does not hash to it. -/
def rejects (hashHex : String → String) (m : Manager) (room_id : String)
    (password : Option String) : Bool :=
  match getVal? m.room_data room_id with
  | some room =>
    match room.password_hash with
    | some h =>
      (match password with
       | none => true
       | some p => p = "" || !(hashHex p = h))
    | none => false
  | none => false

/-- The fresh room created by `connect` on first join to an unknown id:
a single `layer_0` background layer, no strokes/chat/timer, and the
password hash of the (truthy) supplied password. -/
def freshRoom (room_id : String) (now : Int) (hashHex : String → String)
    (password : Option String) : Room :=
  { id := room_id, name := room_id, password_hash := pwHash hashHex password,
    layers := [backgroundLayer], strokes := [], chat_messages := [],
    timer_end := none, created_at := now, thumbnail := none }

/-- The fresh stats record created alongside a fresh room. -/
def freshStats (now : Int) : RoomStats :=
  { total_strokes := 0, total_users_joined := 0, active_users := 0,
    created_at := now, last_activity := now }

/-- `ConnectionManager.connect`.  `ws` is the connecting transport handle,
`now` the current timestamp; `hashHex` abstracts sha256-hexdigest.  On the
rejection path the error reply goes to the connecting socket (recorded
under `user_id`) before the close. -/
def connect (hashHex : String → String) (fails : String → Bool) (m : Manager)
    (now : Int) (ws room_id user_id nickname : String) (password : Option String) :
    ConnectOut :=
  -- password check if the room exists and is protected
  let rejected : Bool := rejects hashHex m room_id password
  if rejected then
    if fails ws then ⟨m, false, [], true⟩
    else ⟨m, false, [(user_id, .error "Invalid password")], false⟩
  else
    -- create the room when it is unknown to the session registry
    -- (this also overwrites any `room_data` entry loaded from persistence)
    let m1 :=
      if (getVal? m.rooms room_id).isSome then m
      else
        { m with rooms := setVal m.rooms room_id [],
                 room_data := setVal m.room_data room_id
                   (freshRoom room_id now hashHex password),
                 room_stats := setVal m.room_stats room_id (freshStats now) }
    -- register the session and its user info
    let sess := (getVal? m1.rooms room_id).getD []
    let m2 := { m1 with rooms := setVal m1.rooms room_id (setVal sess user_id ws) }
    let gc := get_user_color m2 user_id
    let m3 := gc.1
    let color := gc.2
    let m4 := { m3 with user_info := setVal m3.user_info user_id ⟨nickname, room_id, color⟩ }
    -- stats update (`self.room_stats[room_id]` raises KeyError when absent)
    match getVal? m4.room_stats room_id with
    | none => ⟨m4, false, [], true⟩
    | some st =>
      let st' :=
        { st with total_users_joined := st.total_users_joined + 1,
                  active_users := (((getVal? m4.rooms room_id).getD []).length : Int),
                  last_activity := now }
      let m5 := { m4 with room_stats := setVal m4.room_stats room_id st' }
      -- notify others
      let b := broadcast fails m5 room_id
        (.user_joined user_id nickname color (get_room_users m5 room_id)) (some user_id)
      if b.exn then ⟨b.mgr, false, b.sends, true⟩
      else
        -- send the current state to the new user
        match getVal? b.mgr.room_data room_id, getVal? b.mgr.room_stats room_id with
        | some room, some st2 =>
          if fails ws then ⟨b.mgr, false, b.sends, true⟩
          else
            ⟨b.mgr, true,
             b.sends ++ [(user_id,
               .init_state room.id room.name room.password_hash.isSome room.layers
                 room.strokes (last50 room.chat_messages) room.timer_end
                 (get_room_users b.mgr room_id) st2 color)],
             false⟩
        | _, _ => ⟨b.mgr, false, b.sends, true⟩

/-- An inbound event envelope: each field is `some` when the JSON object
carries the key.  Missing-key accesses `data["k"]` raise `KeyError`. -/
structure EventData where
  type : Option String := none
  id : Option String := none
  points : Option (List Point) := none
  color : Option String := none
  size : Option Int := none
  layer_id : Option String := none
  tool : Option String := none
  x : Option Int := none
  y : Option Int := none
  text : Option String := none
  duration : Option Int := none
  thumbnail : Option String := none
  emoji : Option String := none
  name : Option String := none
deriving DecidableEq, Repr

/-- `handle_message(room_id, user_id, nickname, data)` against the manager
state `m`.  `fresh` models the `uuid` generated for this event; `now` the
server timestamp.  A missing required field (`data["…"]`) raises before
any mutation or broadcast of that branch, so the result is `⟨m, [], true⟩`. -/
def handle_message (fails : String → Bool) (m : Manager) (now : Int) (fresh : String)
    (room_id user_id nickname : String) (data : EventData) : StepOut :=
  if data.type = some "stroke" then
    match data.points, data.color, data.size with
    | some pts, some col, some sz =>
      let s : Stroke :=
        { id := data.id.getD fresh, user_id := user_id, points := pts, color := col,
          size := sz, layer_id := data.layer_id.getD "layer_0", timestamp := now,
          tool := data.tool.getD "brush" }
      let m1 := add_stroke m now room_id s
      broadcast fails m1 room_id (.stroke s) (some user_id)
    | _, _, _ => ⟨m, [], true⟩
  else if data.type = some "undo" then
    let r := remove_last_stroke m room_id user_id
    match r.2 with
    | some removed => broadcast fails r.1 room_id (.remove_stroke removed.id) none
    | none => ⟨r.1, [], false⟩
  else if data.type = some "add_layer" then
    -- `manager.room_data[room_id].layers` raises KeyError for an unknown room
    match getVal? m.room_data room_id with
    | none => ⟨m, [], true⟩
    | some room =>
      let l : Layer :=
        { id := data.id.getD ("layer_" ++ fresh), name := data.name.getD "New Layer",
          visible := true, locked := false, opacity := 1,
          order := (room.layers.length : Int) }
      let m1 := add_layer m room_id l
      broadcast fails m1 room_id (.layer_added l) none
  else if data.type = some "clear_layer" then
    match data.layer_id with
    | none => ⟨m, [], true⟩
    | some lid =>
      let m1 := clear_layer m room_id lid
      broadcast fails m1 room_id (.layer_cleared lid) none
  else if data.type = some "cursor" then
    match data.x, data.y with
    | some cx, some cy =>
      let color := ((getVal? m.user_info user_id).map UserInfo.color).getD "#888"
      broadcast fails m room_id (.cursor user_id cx cy color) (some user_id)
    | _, _ => ⟨m, [], true⟩
  else if data.type = some "chat" then
    match data.text with
    | none => ⟨m, [], true⟩
    | some t =>
      let msg : ChatMessage :=
        { id := fresh, user_id := user_id, nickname := nickname,
          text := strTake t 500, timestamp := now }
      let m1 := add_chat_message m room_id msg
      broadcast fails m1 room_id (.chat msg) none
  else if data.type = some "start_timer" then
    let duration := min (data.duration.getD 300) 3600
    let r := set_timer m now room_id duration
    broadcast fails r.1 room_id (.timer_started r.2 duration) none
  else if data.type = some "stop_timer" then
    let m1 := clear_timer m room_id
    broadcast fails m1 room_id .timer_stopped none
  else if data.type = some "save_thumbnail" then
    match getVal? m.room_data room_id with
    | none => ⟨m, [], false⟩
    | some room =>
      let room' := { room with thumbnail := some (strTake (data.thumbnail.getD "") 50000) }
      ⟨{ m with room_data := setVal m.room_data room_id room' }, [], false⟩
  else if data.type = some "reaction" then
    broadcast fails m room_id
      (.reaction user_id (data.emoji.getD "👍") (data.x.getD 0) (data.y.getD 0)) none
  else ⟨m, [], false⟩

/-- The JSON `data` column of a persisted room row, as read back by
`load_room`: each key may be absent. -/
structure SnapshotData where
  layers : Option (List Layer) := none
  strokes : Option (List Stroke) := none
  chat_messages : Option (List ChatMessage) := none
deriving DecidableEq, Repr

/-- A row of the `rooms` table as fetched by `load_room` (`data := none`
models an empty/NULL data column, for which the code uses `data = {}`). -/
structure DbRow where
  id : String
  name : String
  data : Option SnapshotData := none
  thumbnail : Option String := none
  password_hash : Option String := none
  created_at : Int := 0
deriving DecidableEq, Repr

/-- The row-parsing step of `load_room` (the SQL fetch itself is external
I/O): missing snapshot keys fall back to the defaults, in particular a
missing `layers` key falls back to the single default background layer. -/
def load_room_parse (row : DbRow) : Room :=
  let d := row.data.getD {}
  { id := row.id, name := row.name,
    layers := d.layers.getD [backgroundLayer],
    strokes := d.strokes.getD [],
    chat_messages := d.chat_messages.getD [],
    timer_end := none,
    created_at := row.created_at,
    thumbnail := row.thumbnail,
    password_hash := row.password_hash }

/-! ### Dictionary lemmas -/

theorem getVal?_setVal_self {α : Type} (l : List (String × α)) (k : String) (v : α) :
    getVal? (setVal l k v) k = some v := by
  induction l with
  | nil => simp [setVal, getVal?]
  | cons p rest ih =>
    obtain ⟨k', v'⟩ := p
    by_cases h : k' = k
    · simp [setVal, getVal?, h]
    · simp [setVal, getVal?, h, ih]

theorem getVal?_setVal_ne {α : Type} (l : List (String × α)) (k : String) (v : α)
    (k' : String) (h : k ≠ k') : getVal? (setVal l k v) k' = getVal? l k' := by
  induction l with
  | nil => simp [setVal, getVal?, h]
  | cons p rest ih =>
    obtain ⟨a, b⟩ := p
    by_cases ha : a = k
    · subst ha
      simp [setVal, getVal?, h]
    · simp [setVal, getVal?, ha, ih]

theorem getVal?_delVal_ne {α : Type} (l : List (String × α)) (k k' : String)
    (h : k ≠ k') : getVal? (delVal l k) k' = getVal? l k' := by
  induction l with
  | nil => simp [delVal]
  | cons p rest ih =>
    obtain ⟨a, b⟩ := p
    by_cases ha : a = k
    · subst ha
      simp [delVal, getVal?, h]
    · simp [delVal, getVal?, ha, ih]

theorem getVal?_eq_none_iff {α : Type} (l : List (String × α)) (k : String) :
    getVal? l k = none ↔ ∀ p ∈ l, p.1 ≠ k := by
  induction l with
  | nil => simp [getVal?]
  | cons p rest ih =>
    obtain ⟨a, b⟩ := p
    by_cases ha : a = k
    · simp [getVal?, ha]
    · simp [getVal?, ha, ih]

theorem getVal?_isSome_of_mem {α : Type} {l : List (String × α)} {p : String × α}
    (hp : p ∈ l) : (getVal? l p.1).isSome := by
  induction l with
  | nil => simp at hp
  | cons q rest ih =>
    obtain ⟨a, b⟩ := q
    rcases List.mem_cons.1 hp with h | h
    · subst h
      simp [getVal?]
    · by_cases ha : a = p.1
      · simp [getVal?, ha]
      · simpa [getVal?, ha] using ih h

theorem getVal?_delVal_self {α : Type} (l : List (String × α)) (k : String)
    (h : (l.map Prod.fst).Nodup) : getVal? (delVal l k) k = none := by
  induction l with
  | nil => simp [delVal, getVal?]
  | cons p rest ih =>
    obtain ⟨a, b⟩ := p
    simp only [List.map_cons, List.nodup_cons] at h
    by_cases ha : a = k
    · subst ha
      rw [delVal]
      simp only [if_pos rfl]
      rw [getVal?_eq_none_iff]
      intro q hq hk
      exact h.1 (hk ▸ List.mem_map_of_mem Prod.fst hq)
    · simp [delVal, getVal?, ha, ih h.2]

theorem mem_of_mem_delVal {α : Type} {l : List (String × α)} {p : String × α}
    {k : String} (hp : p ∈ delVal l k) : p ∈ l := by
  induction l with
  | nil => simp [delVal] at hp
  | cons q rest ih =>
    obtain ⟨a, b⟩ := q
    by_cases ha : a = k
    · subst ha
      simp only [delVal, if_pos rfl] at hp
      exact List.mem_cons_of_mem _ hp
    · simp only [delVal, if_neg ha] at hp
      rcases List.mem_cons.1 hp with h1 | h1
      · exact h1 ▸ List.mem_cons_self _ _
      · exact List.mem_cons_of_mem _ (ih h1)

theorem getVal?_delVal_of_none {α : Type} (l : List (String × α)) (k' k : String)
    (h : getVal? l k = none) : getVal? (delVal l k') k = none := by
  by_cases hk : k' = k
  · subst hk
    rw [getVal?_eq_none_iff] at h ⊢
    intro p hp
    exact h p (mem_of_mem_delVal hp)
  · rw [getVal?_delVal_ne _ _ _ hk, h]

theorem mem_delVal {α : Type} {l : List (String × α)} {p : String × α} {k : String}
    (hp : p ∈ l) (h : p.1 ≠ k) : p ∈ delVal l k := by
  induction l with
  | nil => simp at hp
  | cons q rest ih =>
    obtain ⟨a, b⟩ := q
    by_cases ha : a = k
    · subst ha
      simp only [delVal, if_pos rfl]
      rcases List.mem_cons.1 hp with h1 | h1
      · exact absurd (congrArg Prod.fst h1) (by simpa using h)
      · exact h1
    · simp only [delVal, if_neg ha]
      rcases List.mem_cons.1 hp with h1 | h1
      · exact h1 ▸ List.mem_cons_self _ _
      · exact List.mem_cons_of_mem _ (ih h1)

theorem nodup_keys_delVal {α : Type} (l : List (String × α)) (k : String)
    (h : (l.map Prod.fst).Nodup) : ((delVal l k).map Prod.fst).Nodup := by
  induction l with
  | nil => simp [delVal]
  | cons p rest ih =>
    obtain ⟨a, b⟩ := p
    simp only [List.map_cons, List.nodup_cons] at h
    by_cases ha : a = k
    · simpa [delVal, ha] using h.2
    · simp only [delVal, if_neg ha, List.map_cons, List.nodup_cons]
      refine ⟨fun hc => h.1 ?_, ih h.2⟩
      · rcases List.mem_map.1 hc with ⟨q, hq, hfst⟩
        exact hfst ▸ List.mem_map_of_mem Prod.fst (mem_of_mem_delVal hq)

/-! ### Fan-out lemmas -/

theorem sendPass_eq (fails : String → Bool) (msg : OutMsg) (exclude : Option String)
    (l : List (String × String)) :
    sendPass fails msg exclude l =
      ((l.filter (fun p => !(decide (some p.1 = exclude)) && !(fails p.2))).map
         (fun p => (p.1, msg)),
       (l.filter (fun p => !(decide (some p.1 = exclude)) && fails p.2)).map Prod.fst) := by
  induction l with
  | nil => simp [sendPass]
  | cons p rest ih =>
    by_cases he : some p.1 = exclude
    · simp [sendPass, he, ih]
    · by_cases hf : fails p.2
      · simp [sendPass, he, hf, ih]
      · simp [sendPass, he, hf, ih]

theorem disconnect_room_data (m : Manager) (room_id user_id : String) :
    (disconnect m room_id user_id).mgr.room_data = m.room_data := by
  unfold disconnect
  split
  · rfl
  · split
    · split
      · dsimp only
        split <;> rfl
      · rfl
    · rfl

theorem disconnect_absent (m : Manager) (room_id user_id : String)
    (h : ∀ sess, getVal? m.rooms room_id = some sess → getVal? sess user_id = none) :
    disconnect m room_id user_id = ⟨m, none, false⟩ := by
  unfold disconnect
  cases hs : getVal? m.rooms room_id with
  | none => rfl
  | some sess => simp [h sess hs]

theorem disconnect_present (m : Manager) (room_id user_id : String)
    (sess : List (String × String)) (ui : UserInfo)
    (hs : getVal? m.rooms room_id = some sess)
    (hu : (getVal? sess user_id).isSome = true)
    (hui : getVal? m.user_info user_id = some ui) :
    (disconnect m room_id user_id).exn = false
    ∧ (disconnect m room_id user_id).nickname = some ui.nickname
    ∧ (disconnect m room_id user_id).mgr.rooms
        = setVal m.rooms room_id (delVal sess user_id)
    ∧ (disconnect m room_id user_id).mgr.user_info = delVal m.user_info user_id
    ∧ (disconnect m room_id user_id).mgr.room_data = m.room_data := by
  unfold disconnect
  rw [hs]
  simp only [hu, if_true, hui, Option.isSome_some, Option.map_some, Option.getD_some]
  cases hst : getVal? m.room_stats room_id with
  | none => simp
  | some st => simp

theorem runDisconnects_spec (room_id : String) (uids : List String) :
    ∀ (m : Manager) (sess : List (String × String)),
    getVal? m.rooms room_id = some sess →
    (sess.map Prod.fst).Nodup →
    (m.user_info.map Prod.fst).Nodup →
    (∀ u ∈ uids, (getVal? sess u).isSome) →
    uids.Nodup →
    (∀ u ∈ uids, (getVal? m.user_info u).isSome) →
    (runDisconnects room_id m uids).2 = false
    ∧ (runDisconnects room_id m uids).1.room_data = m.room_data
    ∧ (∀ u ∈ uids, getVal? (runDisconnects room_id m uids).1.user_info u = none)
    ∧ ∃ sess2, getVal? (runDisconnects room_id m uids).1.rooms room_id = some sess2
        ∧ (∀ u ∈ uids, getVal? sess2 u = none)
        ∧ (∀ p ∈ sess, p.1 ∉ uids → p ∈ sess2)
        ∧ (∀ v, getVal? sess v = none → getVal? sess2 v = none)
        ∧ (∀ v, getVal? m.user_info v = none →
             getVal? (runDisconnects room_id m uids).1.user_info v = none) := by
  induction uids with
  | nil =>
    intro m sess hs _ _ _ _ _
    refine ⟨rfl, rfl, by simp, sess, hs, by simp, fun p hp _ => hp, fun v hv => hv,
      fun v hv => hv⟩
  | cons u rest ih =>
    intro m sess hs hnd hnui hmem hund hcov
    obtain ⟨ui, hui⟩ := Option.isSome_iff_exists.1 (hcov u (List.mem_cons_self u rest))
    have hu : (getVal? sess u).isSome = true := hmem u (List.mem_cons_self u rest)
    obtain ⟨hexn, hnick, hrooms, huinfo, hrdata⟩ :=
      disconnect_present m room_id u sess ui hs hu hui
    have hstep : runDisconnects room_id m (u :: rest)
        = runDisconnects room_id (disconnect m room_id u).mgr rest := by
      rw [runDisconnects]
      simp [hexn]
    have hund' := (List.nodup_cons.1 hund)
    have hs' : getVal? (disconnect m room_id u).mgr.rooms room_id
        = some (delVal sess u) := by
      rw [hrooms, getVal?_setVal_self]
    have hres := ih (disconnect m room_id u).mgr (delVal sess u) hs'
      (nodup_keys_delVal sess u hnd)
      (by rw [huinfo]; exact nodup_keys_delVal m.user_info u hnui)
      (fun v hv => by
        rw [getVal?_delVal_ne sess u v (fun he => hund'.1 (he ▸ hv))]
        exact hmem v (List.mem_cons_of_mem _ hv))
      hund'.2
      (fun v hv => by
        rw [huinfo, getVal?_delVal_ne m.user_info u v (fun he => hund'.1 (he ▸ hv))]
        exact hcov v (List.mem_cons_of_mem _ hv))
    obtain ⟨hexn2, hrdata2, huinfo2, sess2, hsess2, habs2, hmem2, hpres2, hupres2⟩ := hres
    rw [hstep]
    refine ⟨hexn2, by rw [hrdata2, hrdata], ?_, sess2, hsess2, ?_, ?_, ?_, ?_⟩
    · intro v hv
      rcases List.mem_cons.1 hv with h1 | h1
      · subst h1
        exact hupres2 v (by rw [huinfo]; exact getVal?_delVal_self m.user_info v hnui)
      · exact huinfo2 v h1
    · intro v hv
      rcases List.mem_cons.1 hv with h1 | h1
      · subst h1
        exact hpres2 v (getVal?_delVal_self sess v hnd)
      · exact habs2 v h1
    · intro p hp hnotin
      exact hmem2 p
        (mem_delVal hp (fun he => hnotin (he ▸ List.mem_cons_self u rest)))
        (fun hc => hnotin (List.mem_cons_of_mem _ hc))
    · intro v hv
      exact hpres2 v (getVal?_delVal_of_none sess u v hv)
    · intro v hv
      exact hupres2 v (by rw [huinfo]; exact getVal?_delVal_of_none m.user_info u v hv)

theorem runDisconnects_room_data (room_id : String) (uids : List String) :
    ∀ m : Manager, (runDisconnects room_id m uids).1.room_data = m.room_data := by
  induction uids with
  | nil => intro m; rfl
  | cons u rest ih =>
    intro m
    rw [runDisconnects]
    by_cases h : (disconnect m room_id u).exn
    · simp [h, disconnect_room_data]
    · simp [h, ih, disconnect_room_data]

/-- `broadcast` never touches the per-room document state. -/
theorem broadcast_room_data (fails : String → Bool) (m : Manager) (room_id : String)
    (msg : OutMsg) (exclude : Option String) :
    (broadcast fails m room_id msg exclude).mgr.room_data = m.room_data := by
  unfold broadcast
  cases hs : getVal? m.rooms room_id with
  | none => rfl
  | some sess => simpa using runDisconnects_room_data room_id _ m

/-- Every message delivered by one `broadcast` call is the broadcast message. -/
theorem broadcast_sends_msg (fails : String → Bool) (m : Manager) (room_id : String)
    (msg : OutMsg) (exclude : Option String) :
    ∀ p ∈ (broadcast fails m room_id msg exclude).sends, p.2 = msg := by
  unfold broadcast
  cases hs : getVal? m.rooms room_id with
  | none => simp
  | some sess =>
    simp only [sendPass_eq]
    intro p hp
    rcases List.mem_map.1 hp with ⟨q, _, hq⟩
    exact (congrArg Prod.snd hq).symm ▸ rfl

/-- Master specification of `broadcast` on a well-formed manager state:
no exception, deliveries are exactly one copy of the message to each
non-excluded session whose transport does not fail (in session order,
unaffected by failures elsewhere), failed sessions are removed from the
registry after the pass, and all other sessions survive. -/
theorem broadcast_spec (fails : String → Bool) (m : Manager) (room_id : String)
    (msg : OutMsg) (exclude : Option String) (sess : List (String × String))
    (hs : getVal? m.rooms room_id = some sess)
    (hnd : (sess.map Prod.fst).Nodup)
    (hnui : (m.user_info.map Prod.fst).Nodup)
    (hcov : ∀ p ∈ sess, (getVal? m.user_info p.1).isSome) :
    (broadcast fails m room_id msg exclude).exn = false
    ∧ (broadcast fails m room_id msg exclude).sends
        = (sess.filter (fun p => !(decide (some p.1 = exclude)) && !(fails p.2))).map
            (fun p => (p.1, msg))
    ∧ (broadcast fails m room_id msg exclude).mgr.room_data = m.room_data
    ∧ ∃ sess2,
        getVal? (broadcast fails m room_id msg exclude).mgr.rooms room_id = some sess2
        ∧ (∀ p ∈ sess, ¬(some p.1 = exclude) → fails p.2 = true →
             getVal? sess2 p.1 = none
             ∧ getVal? (broadcast fails m room_id msg exclude).mgr.user_info p.1 = none)
        ∧ (∀ p ∈ sess, (some p.1 = exclude ∨ fails p.2 = false) → p ∈ sess2) := by
  have hbd : broadcast fails m room_id msg exclude
      = ⟨(runDisconnects room_id m (sendPass fails msg exclude sess).2).1,
         (sendPass fails msg exclude sess).1,
         (runDisconnects room_id m (sendPass fails msg exclude sess).2).2⟩ := by
    unfold broadcast
    rw [hs]
  set uids := (sendPass fails msg exclude sess).2 with huids
  have huids_eq : uids
      = (sess.filter (fun p => !(decide (some p.1 = exclude)) && fails p.2)).map
          Prod.fst := by
    rw [huids, sendPass_eq]
  have hsub : (sess.filter (fun p => !(decide (some p.1 = exclude)) && fails p.2)).Sublist
      sess := List.filter_sublist sess
  have hund : uids.Nodup := by
    rw [huids_eq]
    exact (hsub.map Prod.fst).nodup hnd
  have hmem : ∀ u ∈ uids, (getVal? sess u).isSome := by
    rw [huids_eq]
    intro u hu
    rcases List.mem_map.1 hu with ⟨q, hq, hfst⟩
    exact hfst ▸ getVal?_isSome_of_mem (hsub.mem hq)
  have hcov2 : ∀ u ∈ uids, (getVal? m.user_info u).isSome := by
    rw [huids_eq]
    intro u hu
    rcases List.mem_map.1 hu with ⟨q, hq, hfst⟩
    exact hfst ▸ hcov q (hsub.mem hq)
  obtain ⟨hexn, hrdata, huinfo, sess2, hsess2, habs, hmem2, _, _⟩ :=
    runDisconnects_spec room_id uids m sess hs hnd hnui hmem hund hcov2
  rw [hbd]
  refine ⟨hexn, ?_, hrdata, sess2, hsess2, ?_, ?_⟩
  · rw [huids, sendPass_eq]
  · intro p hp hne hf
    have hpin : p.1 ∈ uids := by
      rw [huids_eq]
      exact List.mem_map_of_mem Prod.fst (List.mem_filter.2 ⟨hp, by simp [hne, hf]⟩)
    exact ⟨habs p.1 hpin, huinfo p.1 hpin⟩
  · intro p hp hor
    refine hmem2 p hp ?_
    rw [huids_eq]
    intro hc
    rcases List.mem_map.1 hc with ⟨q, hq, hfst⟩
    have := List.mem_filter.1 hq
    have hqp : q = p := by
      have h1 : q ∈ sess := this.1
      have : q.1 = p.1 := hfst
      exact List.inj_on_of_nodup_map hnd h1 hp this
    rcases hor with h1 | h1
    · rw [hqp] at this
      simp [h1] at this
    · rw [hqp] at this
      simp [h1] at this

/-! ### Concrete fixtures for witnesses and counterexamples -/

/-- A transport environment where only handle `"wsA"` fails to send. -/
def failsA : String → Bool := fun w => w = "wsA"

/-- A transport environment where every send succeeds. -/
def noFail : String → Bool := fun _ => false

/-- A concrete stand-in for the external sha256 hexdigest. -/
def hash0 : String → String := fun s => s ++ "#h"

def emptyManager : Manager := ⟨[], [], [], [], []⟩

def room0 : Room where
  id := "r"
  name := "r"
  password_hash := none
  layers := [backgroundLayer]
  strokes := []
  chat_messages := []
  timer_end := none
  created_at := 0
  thumbnail := none

def strokeA : Stroke where
  id := "s1"
  user_id := "A"
  points := [⟨0, 0⟩, ⟨1, 1⟩]
  color := "#000000"
  size := 3
  layer_id := "layer_0"
  timestamp := 1
  tool := "brush"

def strokeB : Stroke where
  id := "s2"
  user_id := "B"
  points := [⟨2, 2⟩]
  color := "#FFFFFF"
  size := 5
  layer_id := "layer_1"
  timestamp := 2
  tool := "brush"

/-- A two-user room `"r"` holding one stroke of each user. -/
def m0 : Manager where
  rooms := [("r", [("A", "wsA"), ("B", "wsB")])]
  user_info := [("A", ⟨"Alice", "r", "#FF6B6B"⟩), ("B", ⟨"Bob", "r", "#4ECDC4"⟩)]
  room_data := [("r", { room0 with strokes := [strokeA, strokeB] })]
  room_stats := [("r", ⟨2, 2, 2, 0, 0⟩)]
  user_colors := [("A", "#FF6B6B"), ("B", "#4ECDC4")]

/-! ### C10: operations on an unknown room id are total no-ops -/

/-- C10: for a room id absent from `room_data`, every state-touching
manager operation is a total no-op (returning `none` where applicable)
and raises nothing; `broadcast` to a room id absent from the session map
delivers nothing and returns without error. -/
theorem unknown_room_ops_noop (m : Manager) (room_id : String)
    (hd : getVal? m.room_data room_id = none)
    (hr : getVal? m.rooms room_id = none) :
    (∀ now s, add_stroke m now room_id s = m)
    ∧ (∀ user_id, remove_last_stroke m room_id user_id = (m, none))
    ∧ (∀ l, add_layer m room_id l = m)
    ∧ (∀ lid, clear_layer m room_id lid = m)
    ∧ (∀ msg, add_chat_message m room_id msg = m)
    ∧ (∀ now d, set_timer m now room_id d = (m, none))
    ∧ clear_timer m room_id = m
    ∧ (∀ fails msg exclude, broadcast fails m room_id msg exclude = ⟨m, [], false⟩) := by
  refine ⟨?_, ?_, ?_, ?_, ?_, ?_, ?_, ?_⟩
  · intro now s; simp [add_stroke, hd]
  · intro u; simp [remove_last_stroke, hd]
  · intro l; simp [add_layer, hd]
  · intro lid; simp [clear_layer, hd]
  · intro msg; simp [add_chat_message, hd]
  · intro now d; simp [set_timer, hd]
  · simp [clear_timer, hd]
  · intro fails msg exclude; simp [broadcast, hr]

theorem unknown_room_ops_noop_witness :
    clear_timer emptyManager "ghost" = emptyManager
    ∧ broadcast noFail emptyManager "ghost" .timer_stopped none = ⟨emptyManager, [], false⟩ := by
  have h := unknown_room_ops_noop emptyManager "ghost" rfl rfl
  exact ⟨h.2.2.2.2.2.2.1, h.2.2.2.2.2.2.2 noFail .timer_stopped none⟩

/-! ### C6: clear_layer removes exactly the strokes of the given layer -/

theorem length_filter_add_length_filter_not {α : Type} (l : List α) (p : α → Bool) :
    (l.filter p).length + (l.filter (fun a => !(p a))).length = l.length := by
  induction l with
  | nil => simp
  | cons a rest ih =>
    by_cases h : p a <;> simp [h, ← ih] <;> omega

/-- C6: `clear_layer(room, L)` removes exactly the strokes with
`layer_id == L`: the new stroke log is the filtered log (a sublist, so
every surviving stroke keeps its relative order), and the number removed
equals the count of strokes on `L` before the call. -/
theorem clear_layer_removes_exactly (m : Manager) (room_id layer_id : String) (r : Room)
    (h : getVal? m.room_data room_id = some r) :
    ∃ r2, getVal? (clear_layer m room_id layer_id).room_data room_id = some r2
    ∧ r2 = { r with strokes := r.strokes.filter (fun s => !(s.layer_id = layer_id)) }
    ∧ (∀ s ∈ r.strokes, ¬(s.layer_id = layer_id) → s ∈ r2.strokes)
    ∧ (∀ s ∈ r2.strokes, ¬(s.layer_id = layer_id) ∧ s ∈ r.strokes)
    ∧ r2.strokes.Sublist r.strokes
    ∧ r.strokes.length - r2.strokes.length
        = (r.strokes.filter (fun s => s.layer_id = layer_id)).length := by
  refine ⟨{ r with strokes := r.strokes.filter (fun s => !(s.layer_id = layer_id)) },
    ?_, rfl, ?_, ?_, ?_, ?_⟩
  · unfold clear_layer
    rw [h]
    exact getVal?_setVal_self _ _ _
  · intro s hs hne
    simp only
    exact List.mem_filter.2 ⟨hs, by simp [hne]⟩
  · intro s hs
    simp only at hs
    have := List.mem_filter.1 hs
    refine ⟨by simpa using this.2, this.1⟩
  · exact List.filter_sublist r.strokes
  · have := length_filter_add_length_filter_not r.strokes
      (fun s => decide (s.layer_id = layer_id))
    simp only
    omega

theorem clear_layer_removes_exactly_witness :
    ∃ r2, getVal? (clear_layer m0 "r" "layer_1").room_data "r" = some r2
    ∧ r2 = { room0 with strokes := [strokeA] } := by
  have h := clear_layer_removes_exactly m0 "r" "layer_1"
    { room0 with strokes := [strokeA, strokeB] } rfl
  obtain ⟨r2, h1, h2, _⟩ := h
  exact ⟨r2, h1, by rw [h2]; decide⟩

/-! ### C5: undo removes at most one stroke, the requester's newest -/

theorem popLastBy_none_iff (l : List Stroke) (u : String) :
    popLastBy l u = none ↔ ∀ s ∈ l, ¬(s.user_id = u) := by
  induction l with
  | nil => simp [popLastBy]
  | cons s rest ih =>
    cases h : popLastBy rest u with
    | some p =>
      simp only [popLastBy, h]
      constructor
      · intro hc; exact absurd hc (by simp)
      · intro hall
        have : popLastBy rest u = none := ih.2 (fun t ht => hall t (List.mem_cons_of_mem _ ht))
        rw [this] at h
        exact absurd h (by simp)
    | none =>
      by_cases hu : s.user_id = u
      · simp only [popLastBy, h, if_pos hu]
        constructor
        · intro hc; exact absurd hc (by simp)
        · intro hall; exact absurd hu (hall s (List.mem_cons_self s rest))
      · simp only [popLastBy, h, if_neg hu]
        refine ⟨fun _ => ?_, fun _ => trivial⟩
        intro t ht
        rcases List.mem_cons.1 ht with h1 | h1
        · exact h1 ▸ hu
        · exact ih.1 h t h1

theorem popLastBy_spec (u : String) (s : Stroke) (pre post : List Stroke)
    (hs : s.user_id = u) (hpost : ∀ t ∈ post, ¬(t.user_id = u)) :
    popLastBy (pre ++ s :: post) u = some (s, pre ++ post) := by
  induction pre with
  | nil =>
    simp only [List.nil_append]
    rw [popLastBy, (popLastBy_none_iff post u).2 hpost]
    simp [hs]
  | cons a pre ih =>
    rw [List.cons_append, popLastBy, ih]
    rfl

/-- C5: scanning newest to oldest, undo removes exactly the most recent
stroke authored by the requester, leaving every other stroke in place; if
the requester has no stroke in the log, the state is unchanged and the
`undo` event broadcasts nothing. -/
theorem undo_removes_at_most_one (m : Manager) (room_id user_id : String) (r : Room)
    (h : getVal? m.room_data room_id = some r) :
    (∀ s pre post, r.strokes = pre ++ s :: post → s.user_id = user_id →
        (∀ t ∈ post, ¬(t.user_id = user_id)) →
        remove_last_stroke m room_id user_id
          = ({ m with room_data := setVal m.room_data room_id { r with strokes := pre ++ post } },
             some s))
    ∧ ((∀ t ∈ r.strokes, ¬(t.user_id = user_id)) →
        remove_last_stroke m room_id user_id = (m, none)
        ∧ ∀ fails now fresh nickname,
            handle_message fails m now fresh room_id user_id nickname { type := some "undo" }
              = ⟨m, [], false⟩) := by
  constructor
  · intro s pre post hlog hsu hpost
    simp only [remove_last_stroke, h, hlog, popLastBy_spec user_id s pre post hsu hpost]
  · intro hall
    have hrm : remove_last_stroke m room_id user_id = (m, none) := by
      simp only [remove_last_stroke, h, (popLastBy_none_iff r.strokes user_id).2 hall]
    refine ⟨hrm, ?_⟩
    intro fails now fresh nickname
    unfold handle_message
    simp [hrm]

theorem undo_removes_at_most_one_witness :
    remove_last_stroke m0 "r" "A"
      = ({ m0 with room_data := setVal m0.room_data "r" { room0 with strokes := [strokeB] } },
         some strokeA)
    ∧ remove_last_stroke m0 "r" "C" = (m0, none) := by
  have h1 := (undo_removes_at_most_one m0 "r" "A"
    { room0 with strokes := [strokeA, strokeB] } rfl).1 strokeA [] [strokeB]
    rfl rfl (by decide)
  have h2 := ((undo_removes_at_most_one m0 "r" "C"
    { room0 with strokes := [strokeA, strokeB] } rfl).2 (by decide)).1
  exact ⟨by simpa using h1, h2⟩

/-! ### C2: timer duration is clamped from above only -/

/-- C2 counterexample: the code computes `min(duration, 3600)` with no
lower clamp.  Requesting `-100` seconds at `now = 1000` stores
`timer_end = 900 < now` and broadcasts duration `-100` (not
`clamp(-100, 0, 3600) = 0`), refuting `now <= timer_end`. -/
theorem timer_clamp_counterexample :
    ((getVal? (handle_message noFail m0 1000 "g" "r" "A" "Alice"
        { type := some "start_timer", duration := some (-100) }).mgr.room_data "r").map
          Room.timer_end = some (some 900))
    ∧ ¬((1000 : Int) ≤ 900)
    ∧ (handle_message noFail m0 1000 "g" "r" "A" "Alice"
        { type := some "start_timer", duration := some (-100) }).sends
      = [("A", .timer_started (some 900) (-100)), ("B", .timer_started (some 900) (-100))] := by
  refine ⟨by decide, by decide, by decide⟩

/-- C2 (amended): for an existing room, a `start_timer` event with numeric
duration `d` stores `timer_end = now + min(d, 3600)` and broadcasts that
end time with duration `min(d, 3600)`; the stored end never exceeds
`now + 3600`, but there is no lower clamp (negative `d` yields an end
before `now`). -/
theorem start_timer_clamped_above (fails : String → Bool) (m : Manager) (now : Int)
    (fresh room_id user_id nickname : String) (d : Int) (r : Room)
    (h : getVal? m.room_data room_id = some r) :
    (∃ r2, getVal? (handle_message fails m now fresh room_id user_id nickname
          { type := some "start_timer", duration := some d }).mgr.room_data room_id
        = some r2
      ∧ r2.timer_end = some (now + min d 3600))
    ∧ now + min d 3600 ≤ now + 3600
    ∧ ∀ p ∈ (handle_message fails m now fresh room_id user_id nickname
          { type := some "start_timer", duration := some d }).sends,
        p.2 = OutMsg.timer_started (some (now + min d 3600)) (min d 3600) := by
  have hred : handle_message fails m now fresh room_id user_id nickname
      { type := some "start_timer", duration := some d }
      = broadcast fails (set_timer m now room_id (min d 3600)).1 room_id
          (.timer_started (set_timer m now room_id (min d 3600)).2 (min d 3600)) none := by
    unfold handle_message
    simp
  have hset : set_timer m now room_id (min d 3600)
      = ({ m with room_data := setVal m.room_data room_id { r with
              timer_end := some (now + min d 3600) } },
         some (now + min d 3600)) := by
    simp only [set_timer, h]
  refine ⟨?_, by omega, ?_⟩
  · refine ⟨{ r with timer_end := some (now + min d 3600) }, ?_, rfl⟩
    rw [hred, broadcast_room_data, hset]
    exact getVal?_setVal_self _ _ _
  · intro p hp
    rw [hred, hset] at hp
    exact broadcast_sends_msg _ _ _ _ _ p hp

theorem start_timer_clamped_above_witness :
    (∃ r2, getVal? (handle_message noFail m0 50 "g" "r" "A" "Alice"
          { type := some "start_timer", duration := some 7200 }).mgr.room_data "r"
        = some r2
      ∧ r2.timer_end = some (50 + min 7200 3600))
    ∧ (50 : Int) + min 7200 3600 ≤ 50 + 3600 := by
  have h := start_timer_clamped_above noFail m0 50 "g" "r" "A" "Alice" 7200
    { room0 with strokes := [strokeA, strokeB] } rfl
  exact ⟨h.1, h.2.1⟩

/-! ### C8: chat text truncation and broadcast to all -/

/-- The ChatMessage built by the `chat` branch of `handle_message`. -/
def chatMsgOf (fresh user_id nickname t : String) (now : Int) : ChatMessage :=
  { id := fresh, user_id := user_id, nickname := nickname,
    text := strTake t 500, timestamp := now }

/-- The `append, then keep the last 100` history update of
`add_chat_message`. -/
def chatTrim (l : List ChatMessage) (msg : ChatMessage) : List ChatMessage :=
  if (l ++ [msg]).length > 100 then (l ++ [msg]).drop ((l ++ [msg]).length - 100)
  else l ++ [msg]

/-- C8: a `chat` event with a present text field stores and broadcasts the
text truncated to its first 500 characters (texts of at most 500
characters are stored unchanged, never rejected) and the message is
delivered to every session whose transport works, the sender included
(no exclusion). -/
theorem chat_truncated_broadcast_all (fails : String → Bool) (m : Manager) (now : Int)
    (fresh room_id user_id nickname t : String) (r : Room)
    (sess : List (String × String))
    (hr : getVal? m.room_data room_id = some r)
    (hs : getVal? m.rooms room_id = some sess)
    (hnd : (sess.map Prod.fst).Nodup)
    (hnui : (m.user_info.map Prod.fst).Nodup)
    (hcov : ∀ p ∈ sess, (getVal? m.user_info p.1).isSome) :
    (handle_message fails m now fresh room_id user_id nickname
        { type := some "chat", text := some t }).exn = false
    ∧ (∃ r2, getVal? (handle_message fails m now fresh room_id user_id nickname
          { type := some "chat", text := some t }).mgr.room_data room_id = some r2
        ∧ r2.chat_messages = chatTrim r.chat_messages (chatMsgOf fresh user_id nickname t now)
        ∧ chatMsgOf fresh user_id nickname t now ∈ r2.chat_messages)
    ∧ (chatMsgOf fresh user_id nickname t now).text = strTake t 500
    ∧ (t.length ≤ 500 → strTake t 500 = t)
    ∧ (strTake t 500).length = min t.length 500
    ∧ (handle_message fails m now fresh room_id user_id nickname
        { type := some "chat", text := some t }).sends
      = (sess.filter (fun p => !(fails p.2))).map
          (fun p => (p.1, OutMsg.chat (chatMsgOf fresh user_id nickname t now)))
    ∧ ∀ p ∈ sess, fails p.2 = false →
        (p.1, OutMsg.chat (chatMsgOf fresh user_id nickname t now))
          ∈ (handle_message fails m now fresh room_id user_id nickname
              { type := some "chat", text := some t }).sends := by
  have hred : handle_message fails m now fresh room_id user_id nickname
      { type := some "chat", text := some t }
      = broadcast fails
          (add_chat_message m room_id (chatMsgOf fresh user_id nickname t now))
          room_id (.chat (chatMsgOf fresh user_id nickname t now)) none := by
    unfold handle_message chatMsgOf
    simp
  have hadd : add_chat_message m room_id (chatMsgOf fresh user_id nickname t now)
      = { m with room_data := setVal m.room_data room_id { r with
            chat_messages := chatTrim r.chat_messages (chatMsgOf fresh user_id nickname t now) } } := by
    simp only [add_chat_message, hr, chatTrim]
  have hs2 : getVal? (add_chat_message m room_id
      (chatMsgOf fresh user_id nickname t now)).rooms room_id = some sess := by
    rw [hadd]
    exact hs
  have hcov2 : ∀ p ∈ sess, (getVal? (add_chat_message m room_id
      (chatMsgOf fresh user_id nickname t now)).user_info p.1).isSome := by
    rw [hadd]
    exact hcov
  have hnui2 : ((add_chat_message m room_id
      (chatMsgOf fresh user_id nickname t now)).user_info.map Prod.fst).Nodup := by
    rw [hadd]
    exact hnui
  obtain ⟨hexn, hsends, hrdata, _⟩ :=
    broadcast_spec fails
      (add_chat_message m room_id (chatMsgOf fresh user_id nickname t now))
      room_id (.chat (chatMsgOf fresh user_id nickname t now)) none sess hs2 hnd hnui2 hcov2
  have hsends2 : (handle_message fails m now fresh room_id user_id nickname
      { type := some "chat", text := some t }).sends
      = (sess.filter (fun p => !(fails p.2))).map
          (fun p => (p.1, OutMsg.chat (chatMsgOf fresh user_id nickname t now))) := by
    have hfe : sess.filter (fun p => !(decide (some p.1 = (none : Option String))) && !(fails p.2))
        = sess.filter (fun p => !(fails p.2)) :=
      List.filter_congr (fun p _ => by simp)
    rw [hred, hsends, hfe]
  refine ⟨by rw [hred]; exact hexn, ?_, rfl, ?_, ?_, hsends2, ?_⟩
  · refine ⟨{ r with chat_messages := chatTrim r.chat_messages (chatMsgOf fresh user_id nickname t now) },
      ?_, rfl, ?_⟩
    · rw [hred, broadcast_room_data, hadd]
      exact getVal?_setVal_self _ _ _
    · show chatMsgOf fresh user_id nickname t now
        ∈ chatTrim r.chat_messages (chatMsgOf fresh user_id nickname t now)
      unfold chatTrim
      by_cases hl : (r.chat_messages ++ [chatMsgOf fresh user_id nickname t now]).length > 100
      · rw [if_pos hl, List.drop_append_of_le_length
            (by simp only [List.length_append, List.length_singleton] at hl ⊢; omega)]
        simp
      · rw [if_neg hl]
        simp
  · intro hlen
    unfold strTake
    rw [List.take_of_length_le hlen]
  · unfold strTake
    show (t.data.take 500).length = min t.length 500
    rw [List.length_take, Nat.min_comm]
    rfl
  · intro p hp hpf
    rw [hsends2]
    exact List.mem_map_of_mem _ (List.mem_filter.2 ⟨hp, by simp [hpf]⟩)

theorem chat_truncated_broadcast_all_witness :
    (handle_message noFail m0 7 "g" "r" "A" "Alice"
        { type := some "chat", text := some "hi" }).exn = false
    ∧ (handle_message noFail m0 7 "g" "r" "A" "Alice"
        { type := some "chat", text := some "hi" }).sends
      = [("A", OutMsg.chat (chatMsgOf "g" "A" "Alice" "hi" 7)),
         ("B", OutMsg.chat (chatMsgOf "g" "A" "Alice" "hi" 7))] := by
  have h := chat_truncated_broadcast_all noFail m0 7 "g" "r" "A" "Alice" "hi"
    { room0 with strokes := [strokeA, strokeB] } [("A", "wsA"), ("B", "wsB")]
    rfl rfl (by decide) (by decide) (by decide)
  refine ⟨h.1, ?_⟩
  rw [h.2.2.2.2.2.1]
  decide

/-! ### C9: leave/disconnect is idempotent -/

/-- C9: `disconnect` removes a present session from the registry and
returns its nickname; on an absent session (or unknown room) it returns
`none` and leaves all state unchanged; a second disconnect for the same
session is a no-op, so leaving twice yields the same state as leaving
once. -/
theorem leave_idempotent (m : Manager) (room_id user_id : String)
    (hnd : ∀ sess, getVal? m.rooms room_id = some sess → (sess.map Prod.fst).Nodup)
    (hcov : ∀ sess, getVal? m.rooms room_id = some sess →
        (getVal? sess user_id).isSome → (getVal? m.user_info user_id).isSome) :
    (disconnect m room_id user_id).exn = false
    ∧ (∀ sess, getVal? m.rooms room_id = some sess → (getVal? sess user_id).isSome →
        ∃ ui, getVal? m.user_info user_id = some ui
          ∧ (disconnect m room_id user_id).nickname = some ui.nickname
          ∧ getVal? (disconnect m room_id user_id).mgr.rooms room_id
              = some (delVal sess user_id)
          ∧ getVal? (delVal sess user_id) user_id = none)
    ∧ ((∀ sess, getVal? m.rooms room_id = some sess → getVal? sess user_id = none) →
        disconnect m room_id user_id = ⟨m, none, false⟩)
    ∧ disconnect (disconnect m room_id user_id).mgr room_id user_id
        = ⟨(disconnect m room_id user_id).mgr, none, false⟩ := by
  cases hrooms : getVal? m.rooms room_id with
  | none =>
    have habs : disconnect m room_id user_id = ⟨m, none, false⟩ :=
      disconnect_absent m room_id user_id (fun sess hs => by rw [hrooms] at hs; cases hs)
    refine ⟨by rw [habs], ?_, fun _ => habs, ?_⟩
    · intro sess hs
      cases hs
    · rw [habs]
      exact habs
  | some sess =>
    cases huv : getVal? sess user_id with
    | none =>
      have habs : disconnect m room_id user_id = ⟨m, none, false⟩ :=
        disconnect_absent m room_id user_id (fun sess2 hs2 => by
          rw [hrooms] at hs2
          injection hs2 with h2
          rw [← h2]
          exact huv)
      refine ⟨by rw [habs], ?_, fun _ => habs, ?_⟩
      · intro sess2 hs2 hu2
        injection hs2 with h2
        subst h2
        rw [huv] at hu2
        simp at hu2
      · rw [habs]
        exact habs
    | some ws =>
      have hu : (getVal? sess user_id).isSome = true := by rw [huv]; rfl
      obtain ⟨ui, hui⟩ := Option.isSome_iff_exists.1 (hcov sess hrooms hu)
      obtain ⟨hexn, hnick, hrooms2, _, _⟩ :=
        disconnect_present m room_id user_id sess ui hrooms hu hui
      have hgone : getVal? (delVal sess user_id) user_id = none :=
        getVal?_delVal_self sess user_id (hnd sess hrooms)
      have hafter : getVal? (disconnect m room_id user_id).mgr.rooms room_id
          = some (delVal sess user_id) := by
        rw [hrooms2]
        exact getVal?_setVal_self _ _ _
      refine ⟨hexn, ?_, ?_, ?_⟩
      · intro sess2 hs2 _
        injection hs2 with h2
        subst h2
        exact ⟨ui, hui, hnick, hafter, hgone⟩
      · intro hall
        have hc := hall sess rfl
        rw [huv] at hc
        cases hc
      · exact disconnect_absent _ room_id user_id (fun sess2 hs2 => by
          rw [hafter] at hs2
          injection hs2 with h2
          rw [← h2]
          exact hgone)

theorem leave_idempotent_witness :
    (disconnect m0 "r" "A").exn = false
    ∧ disconnect (disconnect m0 "r" "A").mgr "r" "A"
        = ⟨(disconnect m0 "r" "A").mgr, none, false⟩ := by
  have h := leave_idempotent m0 "r" "A"
    (fun sess hs => by
      have h0 : getVal? m0.rooms "r" = some [("A", "wsA"), ("B", "wsB")] := by decide
      rw [h0] at hs
      injection hs with h2
      rw [← h2]
      decide)
    (fun sess hs _ => by decide)
  exact ⟨h.1, h.2.2.2⟩

/-! ### C1: events with a missing required field raise instead of being dropped -/

/-- C1 counterexample: a `stroke` event with no `points` field is not
dropped; `handle_message` raises an uncaught `KeyError`
(`data["points"]`), refuting `handle(...) does not raise/crash`. -/
theorem malformed_event_counterexample :
    (handle_message noFail m0 5 "g" "r" "A" "Alice"
        { type := some "stroke", color := some "#000000", size := some 3 }).exn = true := by
  decide

/-- C1 (amended): for every event whose kind is in the dispatch table but
which is missing a required field (`stroke` without points/color/size,
`clear_layer` without layer_id, `cursor` without x/y, `chat` without
text), `handle_message` raises an uncaught `KeyError` before any mutation
or send: the manager state is returned unchanged and no message goes to
any session (not even an error reply), but the exception propagates out
of the router instead of the event being dropped. -/
theorem malformed_event_raises (fails : String → Bool) (m : Manager) (now : Int)
    (fresh room_id user_id nickname : String) (data : EventData) :
    ((data.type = some "stroke"
        ∧ (data.points = none ∨ data.color = none ∨ data.size = none)) →
      handle_message fails m now fresh room_id user_id nickname data = ⟨m, [], true⟩)
    ∧ ((data.type = some "clear_layer" ∧ data.layer_id = none) →
      handle_message fails m now fresh room_id user_id nickname data = ⟨m, [], true⟩)
    ∧ ((data.type = some "cursor" ∧ (data.x = none ∨ data.y = none)) →
      handle_message fails m now fresh room_id user_id nickname data = ⟨m, [], true⟩)
    ∧ ((data.type = some "chat" ∧ data.text = none) →
      handle_message fails m now fresh room_id user_id nickname data = ⟨m, [], true⟩) := by
  refine ⟨?_, ?_, ?_, ?_⟩
  · rintro ⟨ht, hf⟩
    unfold handle_message
    rw [ht]
    cases hpts : data.points <;> cases hcol : data.color <;> cases hsz : data.size <;>
      simp_all
  · rintro ⟨ht, hf⟩
    unfold handle_message
    rw [ht, hf]
    simp
  · rintro ⟨ht, hf⟩
    unfold handle_message
    rw [ht]
    cases hx : data.x <;> cases hy : data.y <;> simp_all
  · rintro ⟨ht, hf⟩
    unfold handle_message
    rw [ht, hf]
    simp

theorem malformed_event_raises_witness :
    handle_message noFail m0 5 "g" "r" "A" "Alice" { type := some "chat" }
      = ⟨m0, [], true⟩ :=
  (malformed_event_raises noFail m0 5 "g" "r" "A" "Alice"
    { type := some "chat" }).2.2.2 ⟨rfl, rfl⟩

/-! ### C3: broadcast failure isolation; pruning without user_left -/

/-- Recognizes a `user_left` notification. -/
def isUserLeftMsg : OutMsg → Bool
  | .user_left .. => true
  | _ => false

/-- C3 counterexample: with sessions `A` (failing transport) and `B`,
broadcasting one message removes `A` from the registry but delivers only
the broadcast message to `B` — no `user_left` notification accompanies
the removal, refuting that pruning happens `together with a user_left
notification to the remaining sessions`. -/
theorem broadcast_prune_counterexample :
    (broadcast failsA m0 "r" .timer_stopped none).sends = [("B", .timer_stopped)]
    ∧ getVal? ((getVal? (broadcast failsA m0 "r" .timer_stopped none).mgr.rooms "r").getD [])
        "A" = none
    ∧ (broadcast failsA m0 "r" .timer_stopped none).sends.all
        (fun s => !(isUserLeftMsg s.2)) = true := by
  refine ⟨by decide, by decide, by decide⟩

/-- C3 (amended): `broadcast` iterates over a snapshot of the session map;
a delivery failure to one session does not prevent delivery to the other
non-excluded sessions (every working non-excluded session receives
exactly the broadcast message, in session order), every delivered message
is the broadcast message itself (in particular no `user_left`
notification is emitted for pruned sessions), and each failed session is
removed — session registry and user info — only after the fan-out pass
completes, via the `disconnect` (leave) operation, while all other
sessions survive. -/
theorem broadcast_failure_isolation (fails : String → Bool) (m : Manager)
    (room_id : String) (msg : OutMsg) (exclude : Option String)
    (sess : List (String × String))
    (hs : getVal? m.rooms room_id = some sess)
    (hnd : (sess.map Prod.fst).Nodup)
    (hnui : (m.user_info.map Prod.fst).Nodup)
    (hcov : ∀ p ∈ sess, (getVal? m.user_info p.1).isSome) :
    (broadcast fails m room_id msg exclude).exn = false
    ∧ (broadcast fails m room_id msg exclude).sends
        = (sess.filter (fun p => !(decide (some p.1 = exclude)) && !(fails p.2))).map
            (fun p => (p.1, msg))
    ∧ (∀ p ∈ sess, ¬(some p.1 = exclude) → fails p.2 = false →
        (p.1, msg) ∈ (broadcast fails m room_id msg exclude).sends)
    ∧ (∀ p ∈ (broadcast fails m room_id msg exclude).sends, p.2 = msg)
    ∧ ∃ sess2,
        getVal? (broadcast fails m room_id msg exclude).mgr.rooms room_id = some sess2
        ∧ (∀ p ∈ sess, ¬(some p.1 = exclude) → fails p.2 = true →
             getVal? sess2 p.1 = none
             ∧ getVal? (broadcast fails m room_id msg exclude).mgr.user_info p.1 = none)
        ∧ (∀ p ∈ sess, (some p.1 = exclude ∨ fails p.2 = false) → p ∈ sess2) := by
  obtain ⟨hexn, hsends, _, sess2, hsess2, habs, hkeep⟩ :=
    broadcast_spec fails m room_id msg exclude sess hs hnd hnui hcov
  refine ⟨hexn, hsends, ?_, broadcast_sends_msg fails m room_id msg exclude,
    sess2, hsess2, habs, hkeep⟩
  intro p hp hne hf
  rw [hsends]
  exact List.mem_map_of_mem _ (List.mem_filter.2 ⟨hp, by simp [hne, hf]⟩)

theorem broadcast_failure_isolation_witness :
    (broadcast failsA m0 "r" .timer_stopped none).exn = false
    ∧ (broadcast failsA m0 "r" .timer_stopped none).sends
        = ([("A", "wsA"), ("B", "wsB")].filter
            (fun p => !(decide (some p.1 = (none : Option String))) && !(failsA p.2))).map
            (fun p => (p.1, OutMsg.timer_stopped)) := by
  have h := broadcast_failure_isolation failsA m0 "r" .timer_stopped none
    [("A", "wsA"), ("B", "wsB")] rfl (by decide) (by decide) (by decide)
  exact ⟨h.1, h.2.1⟩

/-! ### C4: join rejection exactly on password mismatch, with no mutation -/

theorem get_user_color_room_data (m : Manager) (user_id : String) :
    (get_user_color m user_id).1.room_data = m.room_data := by
  unfold get_user_color
  split <;> rfl

theorem rejects_iff (hashHex : String → String) (m : Manager) (room_id : String)
    (password : Option String) :
    rejects hashHex m room_id password = true
      ↔ ∃ r h, getVal? m.room_data room_id = some r ∧ r.password_hash = some h
          ∧ (∀ p, password = some p → ¬(p = "") → ¬(hashHex p = h)) := by
  cases hd : getVal? m.room_data room_id with
  | none =>
    simp only [rejects, hd]
    constructor
    · intro hb; cases hb
    · rintro ⟨r, h, hr, -, -⟩; cases hr
  | some r =>
    cases hph : r.password_hash with
    | none =>
      simp only [rejects, hd, hph]
      constructor
      · intro hb; cases hb
      · rintro ⟨r2, h2, hr2, hph2, -⟩
        injection hr2 with he
        subst he
        rw [hph] at hph2
        cases hph2
    | some h =>
      cases password with
      | none =>
        simp only [rejects, hd, hph]
        constructor
        · intro _
          exact ⟨r, h, rfl, hph, fun p hp => by cases hp⟩
        · intro _; trivial
      | some p =>
        simp only [rejects, hd, hph]
        constructor
        · intro hb
          refine ⟨r, h, rfl, hph, ?_⟩
          intro q hq hne hhash
          injection hq with he
          subst he
          simp at hb
          rcases hb with h1 | h1
          · exact hne h1
          · exact h1 hhash
        · rintro ⟨r2, h2, hr2, hph2, hmis⟩
          injection hr2 with he
          subst he
          rw [hph] at hph2
          injection hph2 with he2
          subst he2
          by_cases hpe : p = ""
          · simp [hpe]
          · simp [hpe, hmis p rfl hpe]

theorem connect_rejected (hashHex : String → String) (fails : String → Bool)
    (m : Manager) (now : Int) (ws room_id user_id nickname : String)
    (password : Option String)
    (hrej : rejects hashHex m room_id password = true)
    (hws : fails ws = false) :
    connect hashHex fails m now ws room_id user_id nickname password
      = ⟨m, false, [(user_id, .error "Invalid password")], false⟩ := by
  unfold connect
  rw [hrej, hws]
  simp

theorem connect_accepts_or_raises (hashHex : String → String) (fails : String → Bool)
    (m : Manager) (now : Int) (ws room_id user_id nickname : String)
    (password : Option String)
    (hrej : rejects hashHex m room_id password = false) :
    (connect hashHex fails m now ws room_id user_id nickname password).accepted = true
    ∨ (connect hashHex fails m now ws room_id user_id nickname password).exn = true := by
  unfold connect
  rw [hrej]
  simp only [Bool.false_eq_true, if_false]
  repeat' split
  all_goals simp

/-- C4: a join is rejected (returns `False` without raising) exactly when
the room already has a password hash and the supplied plaintext is
missing, empty, or does not hash-match it; on rejection exactly one error
message goes to the joining connection, the state is completely
unchanged, and the transport is closed (the call returns before any
registration). -/
theorem join_rejected_iff (hashHex : String → String) (fails : String → Bool)
    (m : Manager) (now : Int) (ws room_id user_id nickname : String)
    (password : Option String)
    (hws : fails ws = false) :
    (((connect hashHex fails m now ws room_id user_id nickname password).exn = false
        ∧ (connect hashHex fails m now ws room_id user_id nickname password).accepted = false)
      ↔ ∃ r h, getVal? m.room_data room_id = some r ∧ r.password_hash = some h
          ∧ (∀ p, password = some p → ¬(p = "") → ¬(hashHex p = h)))
    ∧ ((∃ r h, getVal? m.room_data room_id = some r ∧ r.password_hash = some h
          ∧ (∀ p, password = some p → ¬(p = "") → ¬(hashHex p = h))) →
        connect hashHex fails m now ws room_id user_id nickname password
          = ⟨m, false, [(user_id, .error "Invalid password")], false⟩) := by
  constructor
  · constructor
    · rintro ⟨hexn, hacc⟩
      cases hrej : rejects hashHex m room_id password with
      | false =>
        rcases connect_accepts_or_raises hashHex fails m now ws room_id user_id
          nickname password hrej with h1 | h1
        · rw [hacc] at h1; cases h1
        · rw [hexn] at h1; cases h1
      | true => exact (rejects_iff hashHex m room_id password).1 hrej
    · intro hex
      rw [connect_rejected hashHex fails m now ws room_id user_id nickname password
        ((rejects_iff hashHex m room_id password).2 hex) hws]
      exact ⟨rfl, rfl⟩
  · intro hex
    exact connect_rejected hashHex fails m now ws room_id user_id nickname password
      ((rejects_iff hashHex m room_id password).2 hex) hws

/-- A password-protected room `"p"` with no active session (as after a
restart restore), hash of `"secret"` under `hash0`. -/
def mp : Manager where
  rooms := []
  user_info := []
  room_data := [("p", { room0 with id := "p", name := "p", password_hash := some (hash0 "secret") })]
  room_stats := []
  user_colors := []

theorem join_rejected_iff_witness :
    connect hash0 noFail mp 9 "wsC" "p" "C" "Carol" (some "wrong")
      = ⟨mp, false, [("C", .error "Invalid password")], false⟩ := by
  refine (join_rejected_iff hash0 noFail mp 9 "wsC" "p" "C" "Carol" (some "wrong") rfl).2
    ⟨{ room0 with id := "p", name := "p", password_hash := some (hash0 "secret") },
     hash0 "secret", by decide, rfl, ?_⟩
  intro p hp hne
  injection hp with he
  subst he
  decide

/-! ### C7: layer list presence and growth -/

/-- The layer list of room `q` in manager state `m` (`none` when the room
is unknown). -/
def layersAt (m : Manager) (q : String) : Option (List Layer) :=
  (getVal? m.room_data q).map Room.layers

theorem layersAt_of_room_data (m m2 : Manager) (room_id : String) (r r' : Room)
    (h : getVal? m.room_data room_id = some r)
    (h2 : m2.room_data = setVal m.room_data room_id r')
    (hl : r'.layers = r.layers) (q : String) :
    layersAt m2 q = layersAt m q := by
  unfold layersAt
  rw [h2]
  by_cases hq : room_id = q
  · subst hq
    rw [getVal?_setVal_self, h]
    simp [hl]
  · rw [getVal?_setVal_ne _ _ _ _ hq]

theorem connect_unknown_room_layers (hashHex : String → String) (fails : String → Bool)
    (m : Manager) (now : Int) (ws room_id user_id nickname : String)
    (password : Option String)
    (hnone : getVal? m.rooms room_id = none)
    (hacc : (connect hashHex fails m now ws room_id user_id nickname password).accepted
      = true) :
    ∃ r, getVal? (connect hashHex fails m now ws room_id user_id
        nickname password).mgr.room_data room_id = some r
      ∧ r.layers = [backgroundLayer] := by
  cases hrej : rejects hashHex m room_id password with
  | true =>
    exfalso
    unfold connect at hacc
    rw [hrej] at hacc
    by_cases hws : fails ws <;> simp [hws] at hacc
  | false =>
    refine ⟨freshRoom room_id now hashHex password, ?_, rfl⟩
    unfold connect
    rw [hrej]
    simp only [Bool.false_eq_true, if_false, hnone, Option.isSome_none]
    repeat' split
    all_goals simp only [broadcast_room_data, get_user_color_room_data]
    all_goals exact getVal?_setVal_self _ _ _

theorem layersAt_add_stroke (m : Manager) (now : Int) (room_id : String) (s : Stroke)
    (q : String) : layersAt (add_stroke m now room_id s) q = layersAt m q := by
  unfold add_stroke
  cases h : getVal? m.room_data room_id with
  | none => rfl
  | some r =>
    dsimp only
    split
    · exact layersAt_of_room_data m _ room_id r
        { r with strokes := r.strokes ++ [s] } h rfl rfl q
    · exact layersAt_of_room_data m _ room_id r
        { r with strokes := r.strokes ++ [s] } h rfl rfl q

theorem layersAt_remove_last_stroke (m : Manager) (room_id user_id q : String) :
    layersAt (remove_last_stroke m room_id user_id).1 q = layersAt m q := by
  unfold remove_last_stroke
  cases h : getVal? m.room_data room_id with
  | none => rfl
  | some r =>
    dsimp only
    split
    · rfl
    · next s3 rest3 heq3 =>
      exact layersAt_of_room_data m _ room_id r { r with strokes := rest3 } h rfl rfl q

theorem layersAt_clear_layer (m : Manager) (room_id lid q : String) :
    layersAt (clear_layer m room_id lid) q = layersAt m q := by
  unfold clear_layer
  cases h : getVal? m.room_data room_id with
  | none => rfl
  | some r =>
    exact layersAt_of_room_data m _ room_id r
      { r with strokes := r.strokes.filter (fun s => !(s.layer_id = lid)) } h rfl rfl q

theorem layersAt_add_chat_message (m : Manager) (room_id : String) (msg : ChatMessage)
    (q : String) : layersAt (add_chat_message m room_id msg) q = layersAt m q := by
  unfold add_chat_message
  cases h : getVal? m.room_data room_id with
  | none => rfl
  | some r =>
    exact layersAt_of_room_data m _ room_id r
      { r with chat_messages := (if (r.chat_messages ++ [msg]).length > 100
          then (r.chat_messages ++ [msg]).drop ((r.chat_messages ++ [msg]).length - 100)
          else r.chat_messages ++ [msg]) } h rfl rfl q

theorem layersAt_set_timer (m : Manager) (now : Int) (room_id : String) (d : Int)
    (q : String) : layersAt (set_timer m now room_id d).1 q = layersAt m q := by
  unfold set_timer
  cases h : getVal? m.room_data room_id with
  | none => rfl
  | some r =>
    exact layersAt_of_room_data m _ room_id r
      { r with timer_end := some (now + d) } h rfl rfl q

theorem layersAt_clear_timer (m : Manager) (room_id q : String) :
    layersAt (clear_timer m room_id) q = layersAt m q := by
  unfold clear_timer
  cases h : getVal? m.room_data room_id with
  | none => rfl
  | some r =>
    exact layersAt_of_room_data m _ room_id r { r with timer_end := none } h rfl rfl q

theorem layersAt_add_layer (m : Manager) (room_id : String) (l : Layer) (q : String) :
    layersAt (add_layer m room_id l) q = layersAt m q
    ∨ layersAt (add_layer m room_id l) q
        = (layersAt m q).map (fun ls => ls ++ [l]) := by
  unfold add_layer
  cases h : getVal? m.room_data room_id with
  | none => exact Or.inl rfl
  | some r =>
    by_cases hq : room_id = q
    · subst hq
      right
      unfold layersAt
      rw [getVal?_setVal_self, h]
      rfl
    · left
      unfold layersAt
      rw [getVal?_setVal_ne _ _ _ _ hq]

/-- C7 counterexample: a persisted snapshot whose `layers` key holds an
explicitly empty list is restored as a room with zero layers (the default
background layer is substituted only when the key is absent), refuting
`at least one layer for every possible snapshot`. -/
theorem restored_empty_layers_counterexample :
    (load_room_parse { id := "q", name := "q", data := some { layers := some [] } }).layers
      = []
    ∧ (load_room_parse { id := "q", name := "q", data := some { layers := some [] } }).layers.length = 0 :=
  ⟨rfl, rfl⟩

/-- C7 (amended): a room freshly created by a successful first join has
exactly the single `layer_0` "Background" layer; a room restored from a
snapshot has at least one layer whenever the snapshot's `layers` key is
absent (default background layer) or non-empty — though a snapshot with an
explicitly empty layers list yields zero layers; and no stroke, chat,
timer, undo, clear, disconnect or broadcast operation ever changes a layer
list, while `add_layer` only appends. -/
theorem layers_always_present :
    (∀ (hashHex : String → String) (fails : String → Bool) (m : Manager) (now : Int)
        (ws room_id user_id nickname : String) (password : Option String),
      getVal? m.rooms room_id = none →
      (connect hashHex fails m now ws room_id user_id nickname password).accepted = true →
      ∃ r, getVal? (connect hashHex fails m now ws room_id user_id
          nickname password).mgr.room_data room_id = some r
        ∧ r.layers = [backgroundLayer])
    ∧ (∀ row : DbRow,
        (row.data = none
          ∨ ∃ sd, row.data = some sd
              ∧ (sd.layers = none ∨ ∃ L, sd.layers = some L ∧ L ≠ [])) →
        (load_room_parse row).layers ≠ [])
    ∧ (∀ m now room_id s q, layersAt (add_stroke m now room_id s) q = layersAt m q)
    ∧ (∀ m room_id user_id q,
        layersAt (remove_last_stroke m room_id user_id).1 q = layersAt m q)
    ∧ (∀ m room_id lid q, layersAt (clear_layer m room_id lid) q = layersAt m q)
    ∧ (∀ m room_id msg q, layersAt (add_chat_message m room_id msg) q = layersAt m q)
    ∧ (∀ m now room_id d q, layersAt (set_timer m now room_id d).1 q = layersAt m q)
    ∧ (∀ m room_id q, layersAt (clear_timer m room_id) q = layersAt m q)
    ∧ (∀ m room_id user_id q, layersAt (disconnect m room_id user_id).mgr q = layersAt m q)
    ∧ (∀ fails m room_id msg ex q,
        layersAt (broadcast fails m room_id msg ex).mgr q = layersAt m q)
    ∧ (∀ m room_id l q, layersAt (add_layer m room_id l) q = layersAt m q
        ∨ layersAt (add_layer m room_id l) q = (layersAt m q).map (fun ls => ls ++ [l])) := by
  refine ⟨connect_unknown_room_layers, ?_, layersAt_add_stroke, layersAt_remove_last_stroke,
    layersAt_clear_layer, layersAt_add_chat_message, layersAt_set_timer, layersAt_clear_timer,
    ?_, ?_, layersAt_add_layer⟩
  · intro row hrow
    unfold load_room_parse
    rcases hrow with h | ⟨sd, hsd, hl⟩
    · rw [h]
      simp [backgroundLayer]
    · rw [hsd]
      rcases hl with h2 | ⟨L, hL, hne⟩
      · rw [Option.getD_some]
        show sd.layers.getD [backgroundLayer] ≠ []
        rw [h2]
        simp [backgroundLayer]
      · rw [Option.getD_some]
        show sd.layers.getD [backgroundLayer] ≠ []
        rw [hL]
        simpa using hne
  · intro m room_id user_id q
    unfold layersAt
    rw [disconnect_room_data]
  · intro fails m room_id msg ex q
    unfold layersAt
    rw [broadcast_room_data]

theorem layers_always_present_witness :
    (∃ r, getVal? (connect hash0 noFail emptyManager 0 "wsC" "c1" "C"
        "Carol" none).mgr.room_data "c1" = some r ∧ r.layers = [backgroundLayer])
    ∧ (load_room_parse { id := "q", name := "q" }).layers ≠ [] := by
  have h := layers_always_present
  exact ⟨h.1 hash0 noFail emptyManager 0 "wsC" "c1" "C" "Carol" none rfl (by decide),
    h.2.1 { id := "q", name := "q" } (Or.inl rfl)⟩

end DrawTogether
